import Mathlib

/-!
Verification of the event translation engine of
`src/core/vm/precompile/event/event.go` (package `event`).

The engine translates Cosmos SDK events (ordered key/value string
attributes) into Ethereum log records (topic hashes and packed data).
We embed the data model and the four operations of the file —
`MakeTopics`, `MakeData`, `ValidateAttributes`, `getValueDecoder` —
as pure Lean functions.  Machinery external to the file
(geth's `abi.MakeTopics` hashing rule, `PackValues` tuple encoding,
the repository-level attribute locator `searchAttributesForArg` and the
process-wide `defaultCosmosValueDecoders` table) is modelled from the
specification, as noted on each definition.
-/

namespace Stargazer

/-- An Ethereum topic hash (`common.Hash`), modelled as a natural number. -/
abbrev Hash := Nat

/-- One ABI event argument (`abi.Argument`); only its name is consulted by
the translation engine. -/
structure Arg where
  name : String
deriving DecidableEq, Repr

/-- One Cosmos event attribute: an ordered key/value string pair. -/
structure Attribute where
  key : String
  value : String
deriving DecidableEq, Repr

/-- A Cosmos SDK event (`sdk.Event`): a type name plus an ordered
attribute list. -/
structure Event where
  type : String
  attributes : List Attribute
deriving DecidableEq, Repr

/-- A geth-compatible typed value produced by an attribute value decoder. -/
inductive TypedValue
  | hash (h : Hash)
  | num (n : Int)
  | boolean (b : Bool)
  | str (s : String)
deriving DecidableEq, Repr

/-- The error outcomes of the translation engine, one constructor per
distinct `fmt.Errorf` site of `event.go`, plus `ext` for errors
propagated unchanged from decoders and the external ABI primitives. -/
inductive Err
  | insufficientAttributes (eventType : String)
  | missingAttribute (eventType : String) (argName : String)
  | noDecoderForKey (key : String)
  | ext (msg : String)
deriving DecidableEq, Repr

/-- `valueDecoder`: a function decoding an attribute value string into a
geth-compatible typed value, or failing. -/
abbrev valueDecoder := String → Except Err TypedValue

/-- `ValueDecoders`: a Go `map[string]valueDecoder`.  Modelled as an
association list; an entry with value `none` models a key stored with a
`nil` function value. -/
abbrev ValueDecoders := List (String × Option valueDecoder)

/-- Go map indexing `m[k]`: the stored value when the key is present
(possibly `nil`, i.e. `none`), and `nil` when absent. -/
def mapIndex (m : ValueDecoders) (k : String) : Option valueDecoder :=
  match m.find? (fun p => p.1 == k) with
  | some p => p.2
  | none => none

/-- `PrecompileEvent`: the event descriptor.  `customValueDecoders` is
`Option`-wrapped because the Go field is a map that may be `nil`. -/
structure PrecompileEvent where
  moduleAddr : Nat
  id : Hash
  indexedInputs : List Arg
  nonIndexedInputs : List Arg
  customValueDecoders : Option ValueDecoders

/-- Modelled from the spec (§4.2 Attribute Locator, repository code not
sampled under src/): the sentinel returned when no attribute matches,
distinguishable from index 0. -/
def notFound : Int := -1

/-- Modelled from the spec (§4.2 Attribute Locator, repository code not
sampled under src/): scans the attribute sequence in order and returns
the index of the first attribute whose key equals the argument name,
or the sentinel `notFound`. -/
def searchAttributesForArg (attrs : List Attribute) (argName : String) : Int :=
  match attrs with
  | [] => notFound
  | attr :: rest =>
    if attr.key == argName then 0
    else if searchAttributesForArg rest argName == notFound then notFound
    else searchAttributesForArg rest argName + 1

/-- `getValueDecoder` from `event.go` lines 169-188, with the
process-wide default table passed explicitly (spec §9: the global table
is populated once and read-only, equivalent to a value passed by
read-only reference).  A `nil` map and `nil` stored values are both
skipped, falling through to the default table. -/
def getValueDecoder (defaultCosmosValueDecoders : ValueDecoders)
    (pe : PrecompileEvent) (attrKey : String) : Except Err valueDecoder :=
  let fromCustom : Option valueDecoder :=
    match pe.customValueDecoders with
    | some m => mapIndex m attrKey
    | none => none
  match fromCustom with
  | some decode => Except.ok decode
  | none =>
    match mapIndex defaultCosmosValueDecoders attrKey with
    | some decode => Except.ok decode
    | none => Except.error (Err.noDecoderForKey attrKey)

/-- The per-argument loop body shared verbatim by `MakeTopics`
(lines 82-103) and `MakeData` (lines 123-144): for each argument, in
descriptor order, locate the matching attribute (error
`missingAttribute` when absent), resolve its decoder, decode its value,
and collect the decoded values in order.  An out-of-range locator index
would be a Go panic; it is made an explicit error here and proved
unreachable. -/
def resolveArgs (defaults : ValueDecoders) (pe : PrecompileEvent)
    (event : Event) : List Arg → Except Err (List TypedValue)
  | [] => Except.ok []
  | arg :: rest =>
    let attrIdx := searchAttributesForArg event.attributes arg.name
    if attrIdx == notFound then
      Except.error (Err.missingAttribute event.type arg.name)
    else
      match event.attributes[attrIdx.toNat]? with
      | none => Except.error (Err.ext "attribute index out of range")
      | some attr =>
        match getValueDecoder defaults pe attr.key with
        | Except.error err => Except.error err
        | Except.ok decode =>
          match decode attr.value with
          | Except.error err => Except.error err
          | Except.ok value =>
            match resolveArgs defaults pe event rest with
            | Except.error err => Except.error err
            | Except.ok values => Except.ok (value :: values)

/-- Whether one argument of the descriptor can be fully resolved
against the event: its attribute is found by the locator, a decoder for
the attribute's key resolves, and the decode of its value succeeds.
This predicate replays exactly the per-argument steps of `resolveArgs`
and is used to state which arguments make the builders fail. -/
def argResolves (defaults : ValueDecoders) (pe : PrecompileEvent)
    (e : Event) (a : Arg) : Bool :=
  let attrIdx := searchAttributesForArg e.attributes a.name
  if attrIdx == notFound then false
  else
    match e.attributes[attrIdx.toNat]? with
    | none => false
    | some attr =>
      match getValueDecoder defaults pe attr.key with
      | Except.error _ => false
      | Except.ok decode =>
        match decode attr.value with
        | Except.error _ => false
        | Except.ok _ => true

/-- Modelled from the spec (§4.4 step 3, external geth `abi.MakeTopics`
content-hash rule for dynamic values): an abstract but concrete content
hash of a string. -/
def contentHash (s : String) : Hash :=
  s.data.foldl (fun h c => h * 256 + c.toNat) 7

/-- Modelled from the spec (§4.4 step 3, external geth `abi.MakeTopics`
rule): a fixed-size value's left-padded 32-byte encoding is the topic
itself — in particular a hash value passes through unchanged — while a
dynamic value becomes the content hash of its encoding. -/
def topicOf : TypedValue → Hash
  | TypedValue.hash h => h
  | TypedValue.num n => (n % (2 ^ 256)).toNat
  | TypedValue.boolean b => if b then 1 else 0
  | TypedValue.str s => contentHash s % (2 ^ 256)

/-- Modelled from the spec (external geth `abi.MakeTopics` applied to a
single filter query): each value of the query becomes one topic hash. -/
def abiMakeTopics (query : List TypedValue) : List Hash :=
  query.map topicOf

/-- Modelled from the spec (§4.5, external geth
`abi.Arguments.PackValues` standard tuple encoding): an abstract but
concrete packing of one decoded value into bytes. -/
def encodeValue : TypedValue → List Nat
  | TypedValue.hash h => [0, h % (2 ^ 256)]
  | TypedValue.num n => [1, (n % (2 ^ 256)).toNat]
  | TypedValue.boolean b => [2, if b then 1 else 0]
  | TypedValue.str s => [3, s.data.length, contentHash s]

/-- Modelled from the spec (§4.5, external geth `PackValues`): packs the
ordered decoded value list into a byte sequence; an arity mismatch with
the argument list is an encoding error propagated unchanged (§7). -/
def PackValues (args : List Arg) (values : List TypedValue) :
    Except Err (List Nat) :=
  if args.length = values.length then
    Except.ok (values.foldr (fun v acc => encodeValue v ++ acc) [])
  else
    Except.error (Err.ext "abi: argument count mismatch")

/-- `MakeTopics` from `event.go` lines 75-111: builds the filter query
`[id, decoded indexed args...]` and converts it to topic hashes. -/
def MakeTopics (defaults : ValueDecoders) (pe : PrecompileEvent)
    (event : Event) : Except Err (List Hash) :=
  match resolveArgs defaults pe event pe.indexedInputs with
  | Except.error err => Except.error err
  | Except.ok values =>
    Except.ok (abiMakeTopics (TypedValue.hash pe.id :: values))

/-- `MakeData` from `event.go` lines 117-152: collects the decoded
non-indexed argument values in order and packs them into bytes. -/
def MakeData (defaults : ValueDecoders) (pe : PrecompileEvent)
    (event : Event) : Except Err (List Nat) :=
  match resolveArgs defaults pe event pe.nonIndexedInputs with
  | Except.error err => Except.error err
  | Except.ok attrVals =>
    match PackValues pe.nonIndexedInputs attrVals with
    | Except.error err => Except.error err
    | Except.ok data => Except.ok data

/-- `ValidateAttributes` from `event.go` lines 157-165. -/
def ValidateAttributes (pe : PrecompileEvent) (event : Event) :
    Except Err Unit :=
  if event.attributes.length <
      pe.indexedInputs.length + pe.nonIndexedInputs.length then
    Except.error (Err.insufficientAttributes event.type)
  else
    Except.ok ()

/-! ### State-passing embedding for the frame property

The Go entry points receive the descriptor and the event by pointer.
To make the no-mutation (frame) property statable, the variants below
thread the pair of heap objects explicitly through every step of the
computation, performing each field read of the source against the
current state and returning the final state alongside the result. -/

/-- The heap objects a translation call can reach: the descriptor and
the source event, both received by pointer in Go. -/
structure TransState where
  pe : PrecompileEvent
  ev : Event

/-- State-passing version of the shared per-argument loop: every read
(`event.Attributes`, `event.Type`, `attr.Key`, `attr.Value`,
`pe.customValueDecoders`) targets the current state, and the state
reached at each exit point is returned with the result. -/
def resolveArgsSt (defaults : ValueDecoders) (s : TransState) :
    List Arg → Except Err (List TypedValue) × TransState
  | [] => (Except.ok [], s)
  | arg :: rest =>
    let attrIdx := searchAttributesForArg s.ev.attributes arg.name
    if attrIdx == notFound then
      (Except.error (Err.missingAttribute s.ev.type arg.name), s)
    else
      match s.ev.attributes[attrIdx.toNat]? with
      | none => (Except.error (Err.ext "attribute index out of range"), s)
      | some attr =>
        match getValueDecoder defaults s.pe attr.key with
        | Except.error err => (Except.error err, s)
        | Except.ok decode =>
          match decode attr.value with
          | Except.error err => (Except.error err, s)
          | Except.ok value =>
            match resolveArgsSt defaults s rest with
            | (Except.error err, s1) => (Except.error err, s1)
            | (Except.ok values, s1) => (Except.ok (value :: values), s1)

/-- State-passing version of `MakeTopics`. -/
def MakeTopicsSt (defaults : ValueDecoders) (s : TransState) :
    Except Err (List Hash) × TransState :=
  match resolveArgsSt defaults s s.pe.indexedInputs with
  | (Except.error err, s1) => (Except.error err, s1)
  | (Except.ok values, s1) =>
    (Except.ok (abiMakeTopics (TypedValue.hash s1.pe.id :: values)), s1)

/-- State-passing version of `MakeData`. -/
def MakeDataSt (defaults : ValueDecoders) (s : TransState) :
    Except Err (List Nat) × TransState :=
  match resolveArgsSt defaults s s.pe.nonIndexedInputs with
  | (Except.error err, s1) => (Except.error err, s1)
  | (Except.ok attrVals, s1) =>
    match PackValues s1.pe.nonIndexedInputs attrVals with
    | Except.error err => (Except.error err, s1)
    | Except.ok data => (Except.ok data, s1)

/-- State-passing version of `ValidateAttributes`. -/
def ValidateAttributesSt (s : TransState) :
    Except Err Unit × TransState :=
  if s.ev.attributes.length <
      s.pe.indexedInputs.length + s.pe.nonIndexedInputs.length then
    (Except.error (Err.insufficientAttributes s.ev.type), s)
  else
    (Except.ok (), s)

/-! ### Concrete fixtures

Small concrete decoders, descriptors and events used to instantiate the
theorems below on executable inputs. -/

/-- A decoder that succeeds, returning the attribute value as a string
value. -/
def decStr : valueDecoder := fun s => Except.ok (TypedValue.str s)

/-- A decoder that succeeds with a numeric value, distinguishable from
`decStr`. -/
def decNum : valueDecoder := fun _ => Except.ok (TypedValue.num 7)

/-- A decoder that always fails. -/
def decFail : valueDecoder := fun _ => Except.error (Err.ext "decode failure")

/-- A default decoder table with entries for the keys "from" and
"amount". -/
def defaults0 : ValueDecoders := [("from", some decStr), ("amount", some decStr)]

/-- A descriptor with one indexed argument "from" and one non-indexed
argument "amount", and no custom decoders. -/
def pe0 : PrecompileEvent :=
  ⟨5, 42, [⟨"from"⟩], [⟨"amount"⟩], none⟩

/-- A descriptor like `pe0` whose custom decoder map overrides the key
"from" with `decNum`. -/
def peOverride : PrecompileEvent :=
  ⟨5, 42, [⟨"from"⟩], [⟨"amount"⟩], some [("from", some decNum)]⟩

/-- A descriptor like `pe0` whose custom decoder map stores a `nil`
function under "from". -/
def peNilEntry : PrecompileEvent :=
  ⟨5, 42, [⟨"from"⟩], [⟨"amount"⟩], some [("from", none)]⟩

/-- An event carrying attributes for both "from" and "amount". -/
def e0 : Event := ⟨"transfer", [⟨"from", "aa"⟩, ⟨"amount", "100"⟩]⟩

/-- An event missing the "amount" attribute. -/
def e1 : Event := ⟨"transfer", [⟨"from", "aa"⟩]⟩

/-- An event with no attributes at all. -/
def e2 : Event := ⟨"transfer", []⟩

/-- An event with duplicate attribute keys "from". -/
def eDup : Event :=
  ⟨"transfer", [⟨"x", "0"⟩, ⟨"from", "first"⟩, ⟨"from", "second"⟩]⟩

/-- A descriptor whose second argument key "zzz" (in both argument
lists) has no decoder anywhere, while the first key "from" does. -/
def peZ2 : PrecompileEvent :=
  ⟨5, 42, [⟨"from"⟩, ⟨"zzz"⟩], [⟨"from"⟩, ⟨"zzz"⟩], none⟩

/-- An event carrying attributes for "from" (decodable) and "zzz"
(undecodable). -/
def eZ2 : Event := ⟨"transfer", [⟨"from", "aa"⟩, ⟨"zzz", "v"⟩]⟩

/-! ### Lemmas about the attribute locator -/

theorem searchAttributes_nil (nm : String) :
    searchAttributesForArg [] nm = notFound := rfl

theorem searchAttributes_nonneg (attrs : List Attribute) (nm : String)
    (h : searchAttributesForArg attrs nm ≠ notFound) :
    0 ≤ searchAttributesForArg attrs nm := by
  induction attrs with
  | nil => simp [searchAttributesForArg] at h
  | cons attr rest ih =>
    by_cases hkey : attr.key = nm
    · simp [searchAttributesForArg, hkey]
    · by_cases hrest : searchAttributesForArg rest nm = notFound
      · simp [searchAttributesForArg, hkey, hrest] at h
      · have h0 := ih hrest
        simp only [searchAttributesForArg, beq_iff_eq, hkey, if_false,
          if_neg hrest, if_neg (fun hc => hkey (by simpa using hc))]
        omega

theorem searchAttributes_eq_notFound (attrs : List Attribute) (nm : String) :
    searchAttributesForArg attrs nm = notFound ↔ ∀ attr ∈ attrs, attr.key ≠ nm := by
  induction attrs with
  | nil => simp [searchAttributesForArg]
  | cons attr rest ih =>
    by_cases hkey : attr.key = nm
    · simp [searchAttributesForArg, hkey, notFound]
    · by_cases hrest : searchAttributesForArg rest nm = notFound
      · simpa [searchAttributesForArg, hkey, hrest, notFound] using ih.mp hrest
      · have h0 := searchAttributes_nonneg rest nm hrest
        have hne : searchAttributesForArg (attr :: rest) nm ≠ notFound := by
          simp only [searchAttributesForArg, beq_iff_eq, if_neg hkey, if_neg hrest,
            notFound]
          omega
        constructor
        · intro h; exact absurd h hne
        · intro h
          exact absurd (ih.mpr fun b hb => h b (List.mem_cons_of_mem _ hb)) hrest

theorem searchAttributes_get (attrs : List Attribute) (nm : String)
    (h : searchAttributesForArg attrs nm ≠ notFound) :
    ∃ attr, attrs[(searchAttributesForArg attrs nm).toNat]? = some attr ∧
      attr.key = nm := by
  induction attrs with
  | nil => simp [searchAttributesForArg] at h
  | cons attr rest ih =>
    by_cases hkey : attr.key = nm
    · exact ⟨attr, by simp [searchAttributesForArg, hkey], hkey⟩
    · by_cases hrest : searchAttributesForArg rest nm = notFound
      · simp [searchAttributesForArg, hkey, hrest] at h
      · obtain ⟨b, hb, hbk⟩ := ih hrest
        have h0 := searchAttributes_nonneg rest nm hrest
        refine ⟨b, ?_, hbk⟩
        simp only [searchAttributesForArg, beq_iff_eq, if_neg hkey, if_neg hrest]
        have htn : (searchAttributesForArg rest nm + 1).toNat =
            (searchAttributesForArg rest nm).toNat + 1 := by omega
        rw [htn, List.getElem?_cons_succ]
        exact hb

theorem searchAttributes_first (attrs : List Attribute) (nm : String)
    (j : Nat) (hj : (j : Int) < searchAttributesForArg attrs nm)
    (b : Attribute) (hb : attrs[j]? = some b) : b.key ≠ nm := by
  induction attrs generalizing j with
  | nil => simp at hb
  | cons attr rest ih =>
    by_cases hkey : attr.key = nm
    · simp only [searchAttributesForArg, beq_iff_eq, if_pos hkey] at hj
      omega
    · by_cases hrest : searchAttributesForArg rest nm = notFound
      · have hnf : searchAttributesForArg (attr :: rest) nm = notFound := by
          simp [searchAttributesForArg, hkey, hrest]
        rw [hnf] at hj
        simp only [notFound] at hj
        omega
      · simp only [searchAttributesForArg, beq_iff_eq, if_neg hkey,
          if_neg hrest] at hj
        cases j with
        | zero =>
          rw [List.getElem?_cons_zero] at hb
          cases hb
          exact hkey
        | succ j2 =>
          have hj2 : (j2 : Int) < searchAttributesForArg rest nm := by
            push_cast at hj ⊢
            omega
          rw [List.getElem?_cons_succ] at hb
          exact ih j2 hj2 hb

/-! ### Lemmas about the shared per-argument loop -/

theorem resolveArgs_nil (d : ValueDecoders) (pe : PrecompileEvent) (e : Event) :
    resolveArgs d pe e [] = Except.ok [] := rfl

theorem resolveArgs_cons_fail (d : ValueDecoders) (pe : PrecompileEvent)
    (e : Event) (a : Arg) (rest : List Arg)
    (h : argResolves d pe e a = false) :
    ∃ err, resolveArgs d pe e (a :: rest) = Except.error err := by
  by_cases hidx : searchAttributesForArg e.attributes a.name = notFound
  · exact ⟨Err.missingAttribute e.type a.name, by simp [resolveArgs, hidx]⟩
  · cases hget : e.attributes[(searchAttributesForArg e.attributes a.name).toNat]? with
    | none =>
      exact ⟨Err.ext "attribute index out of range", by simp [resolveArgs, hidx, hget]⟩
    | some attr =>
      cases hdec : getValueDecoder d pe attr.key with
      | error err => exact ⟨err, by simp [resolveArgs, hidx, hget, hdec]⟩
      | ok decode =>
        cases hval : decode attr.value with
        | error err => exact ⟨err, by simp [resolveArgs, hidx, hget, hdec, hval]⟩
        | ok v =>
          exfalso
          simp [argResolves, hidx, hget, hdec, hval] at h

theorem resolveArgs_cons_ok (d : ValueDecoders) (pe : PrecompileEvent)
    (e : Event) (a : Arg) (rest : List Arg)
    (h : argResolves d pe e a = true) :
    ∃ v, (∀ err, resolveArgs d pe e rest = Except.error err →
            resolveArgs d pe e (a :: rest) = Except.error err) ∧
         (∀ vs, resolveArgs d pe e rest = Except.ok vs →
            resolveArgs d pe e (a :: rest) = Except.ok (v :: vs)) := by
  by_cases hidx : searchAttributesForArg e.attributes a.name = notFound
  · exfalso; simp [argResolves, hidx] at h
  · cases hget : e.attributes[(searchAttributesForArg e.attributes a.name).toNat]? with
    | none => exfalso; simp [argResolves, hidx, hget] at h
    | some attr =>
      cases hdec : getValueDecoder d pe attr.key with
      | error err => exfalso; simp [argResolves, hidx, hget, hdec] at h
      | ok decode =>
        cases hval : decode attr.value with
        | error err => exfalso; simp [argResolves, hidx, hget, hdec, hval] at h
        | ok v =>
          refine ⟨v, ?_, ?_⟩
          · intro err herr
            simp [resolveArgs, hidx, hget, hdec, hval, herr]
          · intro vs hvs
            simp [resolveArgs, hidx, hget, hdec, hval, hvs]

theorem resolveArgs_length (d : ValueDecoders) (pe : PrecompileEvent) (e : Event) :
    ∀ args vs, resolveArgs d pe e args = Except.ok vs → vs.length = args.length := by
  intro args
  induction args with
  | nil => intro vs h; cases h; rfl
  | cons a rest ih =>
    intro vs h
    by_cases ha : argResolves d pe e a = true
    · obtain ⟨v, herr, hok⟩ := resolveArgs_cons_ok d pe e a rest ha
      cases hrest : resolveArgs d pe e rest with
      | error err => rw [herr err hrest] at h; simp at h
      | ok vs2 =>
        rw [hok vs2 hrest] at h
        injection h with h2
        subst h2
        simp [ih vs2 hrest]
    · obtain ⟨err, herr⟩ := resolveArgs_cons_fail d pe e a rest (by simpa using ha)
      rw [herr] at h; simp at h

theorem resolveArgs_ok_of_all (d : ValueDecoders) (pe : PrecompileEvent) (e : Event) :
    ∀ args, (∀ a ∈ args, argResolves d pe e a = true) →
    ∃ vs, resolveArgs d pe e args = Except.ok vs := by
  intro args
  induction args with
  | nil => intro _; exact ⟨[], rfl⟩
  | cons a rest ih =>
    intro hall
    obtain ⟨vs, hvs⟩ := ih (fun b hb => hall b (List.mem_cons_of_mem _ hb))
    obtain ⟨v, _, hok⟩ :=
      resolveArgs_cons_ok d pe e a rest (hall a (List.mem_cons_self a rest))
    exact ⟨v :: vs, hok vs hvs⟩

theorem resolveArgs_error_of_exists (d : ValueDecoders) (pe : PrecompileEvent)
    (e : Event) :
    ∀ args, (∃ a ∈ args, argResolves d pe e a = false) →
    ∃ err, resolveArgs d pe e args = Except.error err := by
  intro args
  induction args with
  | nil =>
    rintro ⟨a, ha, _⟩
    cases ha
  | cons a rest ih =>
    rintro ⟨b, hb, hbf⟩
    by_cases ha : argResolves d pe e a = true
    · have hbrest : b ∈ rest := by
        cases List.mem_cons.mp hb with
        | inl heq => rw [heq, ha] at hbf; cases hbf
        | inr hmem => exact hmem
      obtain ⟨err, herr⟩ := ih ⟨b, hbrest, hbf⟩
      obtain ⟨v, herrp, _⟩ := resolveArgs_cons_ok d pe e a rest ha
      exact ⟨err, herrp err herr⟩
    · exact resolveArgs_cons_fail d pe e a rest (by simpa using ha)

theorem resolveArgs_first_missing (d : ValueDecoders) (pe : PrecompileEvent)
    (e : Event) :
    ∀ pre (a : Arg) post, (∀ b ∈ pre, argResolves d pe e b = true) →
    searchAttributesForArg e.attributes a.name = notFound →
    resolveArgs d pe e (pre ++ a :: post) =
      Except.error (Err.missingAttribute e.type a.name) := by
  intro pre
  induction pre with
  | nil =>
    intro a post _ hnf
    simp [resolveArgs, hnf]
  | cons b pres ih =>
    intro a post hall hnf
    have hres := ih a post (fun c hc => hall c (List.mem_cons_of_mem _ hc)) hnf
    obtain ⟨v, herrp, _⟩ := resolveArgs_cons_ok d pe e b (pres ++ a :: post)
      (hall b (List.mem_cons_self b pres))
    exact herrp _ hres

theorem resolveArgsSt_eq (defaults : ValueDecoders) (s : TransState) :
    ∀ args, resolveArgsSt defaults s args =
      (resolveArgs defaults s.pe s.ev args, s) := by
  intro args
  induction args with
  | nil => rfl
  | cons a rest ih =>
    by_cases hidx : searchAttributesForArg s.ev.attributes a.name = notFound
    · simp [resolveArgsSt, resolveArgs, hidx]
    · cases hget : s.ev.attributes[(searchAttributesForArg s.ev.attributes a.name).toNat]? with
      | none => simp [resolveArgsSt, resolveArgs, hidx, hget]
      | some attr =>
        cases hdec : getValueDecoder defaults s.pe attr.key with
        | error err => simp [resolveArgsSt, resolveArgs, hidx, hget, hdec]
        | ok decode =>
          cases hval : decode attr.value with
          | error err => simp [resolveArgsSt, resolveArgs, hidx, hget, hdec, hval]
          | ok v =>
            cases hrest : resolveArgs defaults s.pe s.ev rest with
            | error err =>
              simp [resolveArgsSt, resolveArgs, hidx, hget, hdec, hval, ih, hrest]
            | ok vs =>
              simp [resolveArgsSt, resolveArgs, hidx, hget, hdec, hval, ih, hrest]

/-! ### Claim theorems -/

/-- C1: for every descriptor and source event satisfying the
attribute-count precondition on which `MakeTopics` succeeds, the
returned hash sequence has length exactly `1 + len(indexedInputs)` and
its slot 0 equals the descriptor's identifier. -/
theorem C1_makeTopics_length_and_slot0 (defaults : ValueDecoders)
    (pe : PrecompileEvent) (e : Event) (ts : List Hash)
    (hval : ValidateAttributes pe e = Except.ok ())
    (hok : MakeTopics defaults pe e = Except.ok ts) :
    ts.length = 1 + pe.indexedInputs.length ∧ ts.head? = some pe.id := by
  unfold MakeTopics at hok
  cases hres : resolveArgs defaults pe e pe.indexedInputs with
  | error err => rw [hres] at hok; simp at hok
  | ok values =>
    rw [hres] at hok
    injection hok with h2
    subst h2
    constructor
    · simp [abiMakeTopics, resolveArgs_length defaults pe e _ values hres,
        Nat.add_comm]
    · simp [abiMakeTopics, topicOf]

theorem C1_witness :
    ValidateAttributes pe0 e0 = Except.ok () ∧
    MakeTopics defaults0 pe0 e0 = Except.ok [42, 483681] ∧
    (([42, 483681] : List Hash).length = 1 + pe0.indexedInputs.length ∧
      ([42, 483681] : List Hash).head? = some pe0.id) :=
  ⟨rfl, rfl, C1_makeTopics_length_and_slot0 defaults0 pe0 e0 [42, 483681] rfl rfl⟩

/-- C2: `ValidateAttributes` reports the insufficient-attributes error
exactly when the event carries fewer attributes than the descriptor's
indexed plus non-indexed argument count, returns success otherwise, and
mutates neither the descriptor nor the event. -/
theorem C2_validateAttributes_iff (pe : PrecompileEvent) (e : Event) :
    (ValidateAttributes pe e = Except.error (Err.insufficientAttributes e.type) ↔
      e.attributes.length < pe.indexedInputs.length + pe.nonIndexedInputs.length) ∧
    (ValidateAttributes pe e = Except.ok () ↔
      ¬ e.attributes.length < pe.indexedInputs.length + pe.nonIndexedInputs.length) ∧
    (ValidateAttributesSt ⟨pe, e⟩).2 = ⟨pe, e⟩ := by
  by_cases h : e.attributes.length <
      pe.indexedInputs.length + pe.nonIndexedInputs.length
  · exact ⟨by simp [ValidateAttributes, h], by simp [ValidateAttributes, h],
      by simp [ValidateAttributesSt, h]⟩
  · exact ⟨by simp [ValidateAttributes, h], by simp [ValidateAttributes, h],
      by simp [ValidateAttributesSt, h]⟩

/-- C8: `MakeTopics`, `MakeData` and `ValidateAttributes` leave the
descriptor and the source event unchanged, whether they succeed or
fail: the state-passing embeddings return the initial state untouched
while computing the same results as the plain functions. -/
theorem C8_no_mutation (defaults : ValueDecoders) (s : TransState) :
    (MakeTopicsSt defaults s).2 = s ∧
    (MakeDataSt defaults s).2 = s ∧
    (ValidateAttributesSt s).2 = s ∧
    (MakeTopicsSt defaults s).1 = MakeTopics defaults s.pe s.ev ∧
    (MakeDataSt defaults s).1 = MakeData defaults s.pe s.ev ∧
    (ValidateAttributesSt s).1 = ValidateAttributes s.pe s.ev := by
  have ht : MakeTopicsSt defaults s = (MakeTopics defaults s.pe s.ev, s) := by
    unfold MakeTopicsSt MakeTopics
    rw [resolveArgsSt_eq]
    cases resolveArgs defaults s.pe s.ev s.pe.indexedInputs <;> rfl
  have hd : MakeDataSt defaults s = (MakeData defaults s.pe s.ev, s) := by
    unfold MakeDataSt MakeData
    rw [resolveArgsSt_eq]
    cases hres : resolveArgs defaults s.pe s.ev s.pe.nonIndexedInputs with
    | error err => rfl
    | ok vs =>
      dsimp only
      cases PackValues s.pe.nonIndexedInputs vs <;> rfl
  have hv : ValidateAttributesSt s = (ValidateAttributes s.pe s.ev, s) := by
    unfold ValidateAttributesSt ValidateAttributes
    split <;> rfl
  rw [ht, hd, hv]
  exact ⟨rfl, rfl, rfl, rfl, rfl, rfl⟩

theorem getValueDecoder_custom_congr (d : ValueDecoders)
    (pe1 pe2 : PrecompileEvent)
    (h : pe1.customValueDecoders = pe2.customValueDecoders) (k : String) :
    getValueDecoder d pe1 k = getValueDecoder d pe2 k := by
  unfold getValueDecoder
  rw [h]

theorem resolveArgs_custom_congr (d : ValueDecoders)
    (pe1 pe2 : PrecompileEvent) (e : Event)
    (h : pe1.customValueDecoders = pe2.customValueDecoders) :
    ∀ args, resolveArgs d pe1 e args = resolveArgs d pe2 e args := by
  intro args
  induction args with
  | nil => rfl
  | cons a rest ih =>
    simp only [resolveArgs, ih, getValueDecoder_custom_congr d pe1 pe2 h]

theorem resolveArgs_missing_of_mixed (d : ValueDecoders) (pe : PrecompileEvent)
    (e : Event) :
    ∀ args, (∀ a ∈ args, argResolves d pe e a = true ∨
      searchAttributesForArg e.attributes a.name = notFound) →
    (∃ a ∈ args, searchAttributesForArg e.attributes a.name = notFound) →
    ∃ nm, resolveArgs d pe e args =
      Except.error (Err.missingAttribute e.type nm) := by
  intro args
  induction args with
  | nil =>
    rintro _ ⟨a, ha, _⟩
    cases ha
  | cons a rest ih =>
    intro hall hex
    cases hall a (List.mem_cons_self a rest) with
    | inr hnf => exact ⟨a.name, by simp [resolveArgs, hnf]⟩
    | inl hres =>
      have hexr : ∃ b ∈ rest, searchAttributesForArg e.attributes b.name = notFound := by
        obtain ⟨b, hb, hbn⟩ := hex
        cases List.mem_cons.mp hb with
        | inl heq =>
          exfalso
          rw [heq] at hbn
          simp [argResolves, hbn] at hres
        | inr hmem => exact ⟨b, hmem, hbn⟩
      obtain ⟨nm, hnm⟩ := ih (fun b hb => hall b (List.mem_cons_of_mem _ hb)) hexr
      obtain ⟨v, herrp, _⟩ := resolveArgs_cons_ok d pe e a rest hres
      exact ⟨nm, herrp _ hnm⟩

/-- C4: a missing attribute for any required argument, or any failing
step of attribute decoding, makes the affected builder return an error
and no output; when the first failing argument is one whose attribute
is absent, the error is precisely the missing-attribute error carrying
the event type and the argument name. -/
theorem C4_all_or_nothing (defaults : ValueDecoders) (pe : PrecompileEvent)
    (e : Event) :
    ((∃ a ∈ pe.indexedInputs, argResolves defaults pe e a = false) →
      ∃ err, MakeTopics defaults pe e = Except.error err) ∧
    ((∃ a ∈ pe.nonIndexedInputs, argResolves defaults pe e a = false) →
      ∃ err, MakeData defaults pe e = Except.error err) ∧
    (∀ pre a post, pe.indexedInputs = pre ++ a :: post →
      (∀ b ∈ pre, argResolves defaults pe e b = true) →
      searchAttributesForArg e.attributes a.name = notFound →
      MakeTopics defaults pe e = Except.error (Err.missingAttribute e.type a.name)) ∧
    (∀ pre a post, pe.nonIndexedInputs = pre ++ a :: post →
      (∀ b ∈ pre, argResolves defaults pe e b = true) →
      searchAttributesForArg e.attributes a.name = notFound →
      MakeData defaults pe e = Except.error (Err.missingAttribute e.type a.name)) := by
  refine ⟨?_, ?_, ?_, ?_⟩
  · intro hex
    obtain ⟨err, herr⟩ := resolveArgs_error_of_exists defaults pe e _
      (by obtain ⟨a, ha, haf⟩ := hex; exact ⟨a, ha, haf⟩)
    exact ⟨err, by simp [MakeTopics, herr]⟩
  · intro hex
    obtain ⟨err, herr⟩ := resolveArgs_error_of_exists defaults pe e _
      (by obtain ⟨a, ha, haf⟩ := hex; exact ⟨a, ha, haf⟩)
    exact ⟨err, by simp [MakeData, herr]⟩
  · intro pre a post hsplit hpre hnf
    have herr := resolveArgs_first_missing defaults pe e pre a post hpre hnf
    rw [← hsplit] at herr
    simp [MakeTopics, herr]
  · intro pre a post hsplit hpre hnf
    have herr := resolveArgs_first_missing defaults pe e pre a post hpre hnf
    rw [← hsplit] at herr
    simp [MakeData, herr]

theorem C4_witness :
    (∃ a ∈ pe0.indexedInputs, argResolves defaults0 pe0 e2 a = false) ∧
    (∃ a ∈ pe0.nonIndexedInputs, argResolves defaults0 pe0 e2 a = false) ∧
    pe0.indexedInputs = [] ++ (⟨"from"⟩ : Arg) :: [] ∧
    pe0.nonIndexedInputs = [] ++ (⟨"amount"⟩ : Arg) :: [] ∧
    searchAttributesForArg e2.attributes "from" = notFound ∧
    searchAttributesForArg e2.attributes "amount" = notFound ∧
    MakeTopics defaults0 pe0 e2 =
      Except.error (Err.missingAttribute "transfer" "from") ∧
    MakeData defaults0 pe0 e2 =
      Except.error (Err.missingAttribute "transfer" "amount") :=
  ⟨⟨⟨"from"⟩, by simp [pe0], rfl⟩, ⟨⟨"amount"⟩, by simp [pe0], rfl⟩, rfl, rfl, rfl, rfl,
    (C4_all_or_nothing defaults0 pe0 e2).2.2.1 [] ⟨"from"⟩ []
      rfl (fun b hb => absurd hb (List.not_mem_nil b)) rfl,
    (C4_all_or_nothing defaults0 pe0 e2).2.2.2 [] ⟨"amount"⟩ []
      rfl (fun b hb => absurd hb (List.not_mem_nil b)) rfl⟩

/-- C5: on any attribute sequence holding two or more attributes whose
key equals the argument name, the locator returns the index of the
first occurrence in sequence order (no earlier index matches and the
result is at most any matching index), and absence is signalled by the
sentinel `notFound`, which is distinguishable from index 0 and is not a
panic. -/
theorem C5_locator_first_match (attrs : List Attribute) (nm : String)
    (i j : Nat) (hij : i < j) (a b : Attribute)
    (hai : attrs[i]? = some a) (hbj : attrs[j]? = some b)
    (hak : a.key = nm) (hbk : b.key = nm) :
    0 ≤ searchAttributesForArg attrs nm ∧
    (searchAttributesForArg attrs nm).toNat ≤ i ∧
    (∃ c, attrs[(searchAttributesForArg attrs nm).toNat]? = some c ∧
      c.key = nm) ∧
    (∀ k2 < (searchAttributesForArg attrs nm).toNat,
      ∀ c, attrs[k2]? = some c → c.key ≠ nm) ∧
    notFound ≠ 0 ∧ searchAttributesForArg attrs nm ≠ notFound := by
  have hmem : a ∈ attrs := by
    obtain ⟨hlt, heq⟩ := List.getElem?_eq_some.mp hai
    exact heq ▸ List.getElem_mem hlt
  have hne : searchAttributesForArg attrs nm ≠ notFound := by
    rw [Ne, searchAttributes_eq_notFound]
    push_neg
    exact ⟨a, hmem, hak⟩
  have hpos := searchAttributes_nonneg attrs nm hne
  refine ⟨hpos, ?_, searchAttributes_get attrs nm hne, ?_, by simp [notFound], hne⟩
  · by_contra hgt
    push_neg at hgt
    have hja : (i : Int) < searchAttributesForArg attrs nm := by omega
    exact searchAttributes_first attrs nm i hja a hai hak
  · intro k2 hk2 c hc
    have hkc : (k2 : Int) < searchAttributesForArg attrs nm := by omega
    exact searchAttributes_first attrs nm k2 hkc c hc

theorem C5_witness :
    (1 : Nat) < 2 ∧
    eDup.attributes[1]? = some ⟨"from", "first"⟩ ∧
    eDup.attributes[2]? = some ⟨"from", "second"⟩ ∧
    (0 ≤ searchAttributesForArg eDup.attributes "from" ∧
      (searchAttributesForArg eDup.attributes "from").toNat ≤ 1 ∧
      (∃ c, eDup.attributes[(searchAttributesForArg eDup.attributes "from").toNat]? =
        some c ∧ c.key = "from") ∧
      (∀ k2 < (searchAttributesForArg eDup.attributes "from").toNat,
        ∀ c, eDup.attributes[k2]? = some c → c.key ≠ "from") ∧
      notFound ≠ 0 ∧ searchAttributesForArg eDup.attributes "from" ≠ notFound) :=
  ⟨Nat.one_lt_two, rfl, rfl,
    C5_locator_first_match eDup.attributes "from" 1 2 Nat.one_lt_two
      ⟨"from", "first"⟩ ⟨"from", "second"⟩ rfl rfl rfl rfl⟩

/-- C6: translation is deterministic — two calls of `MakeTopics` and
`MakeData` on identical decoder tables, descriptors and events produce
identical results, success or failure. -/
theorem C6_deterministic (d1 d2 : ValueDecoders) (pe1 pe2 : PrecompileEvent)
    (e1 e2 : Event) (hd : d1 = d2) (hpe : pe1 = pe2) (he : e1 = e2) :
    MakeTopics d1 pe1 e1 = MakeTopics d2 pe2 e2 ∧
    MakeData d1 pe1 e1 = MakeData d2 pe2 e2 := by
  subst hd
  subst hpe
  subst he
  exact ⟨rfl, rfl⟩

theorem C6_witness :
    defaults0 = defaults0 ∧ pe0 = pe0 ∧ e0 = e0 ∧
    MakeTopics defaults0 pe0 e0 = MakeTopics defaults0 pe0 e0 ∧
    MakeData defaults0 pe0 e0 = MakeData defaults0 pe0 e0 :=
  ⟨rfl, rfl, rfl,
    (C6_deterministic defaults0 defaults0 pe0 pe0 e0 e0 rfl rfl rfl).1,
    (C6_deterministic defaults0 defaults0 pe0 pe0 e0 e0 rfl rfl rfl).2⟩

/-- C7: topic building and data building are independent failure
domains — `MakeData` does not depend on the indexed argument list or
the identifier, `MakeTopics` does not depend on the non-indexed
argument list, and an event missing only a non-indexed argument's
attribute makes `MakeData` fail with the missing-attribute error while
`MakeTopics` still succeeds. -/
theorem C7_independent_failure_domains (defaults : ValueDecoders)
    (pe : PrecompileEvent) (e : Event) :
    (∀ xs idv, MakeData defaults
        { pe with indexedInputs := xs, id := idv } e = MakeData defaults pe e) ∧
    (∀ ys, MakeTopics defaults
        { pe with nonIndexedInputs := ys } e = MakeTopics defaults pe e) ∧
    ((∀ a ∈ pe.indexedInputs, argResolves defaults pe e a = true) →
      (∀ a ∈ pe.nonIndexedInputs, argResolves defaults pe e a = true ∨
        searchAttributesForArg e.attributes a.name = notFound) →
      (∃ a ∈ pe.nonIndexedInputs,
        searchAttributesForArg e.attributes a.name = notFound) →
      (∃ ts, MakeTopics defaults pe e = Except.ok ts) ∧
      (∃ nm, MakeData defaults pe e =
        Except.error (Err.missingAttribute e.type nm))) := by
  refine ⟨?_, ?_, ?_⟩
  · intro xs idv
    unfold MakeData
    rw [resolveArgs_custom_congr defaults
      { pe with indexedInputs := xs, id := idv } pe e rfl]
  · intro ys
    unfold MakeTopics
    rw [resolveArgs_custom_congr defaults
      { pe with nonIndexedInputs := ys } pe e rfl]
  intro hidx hmix hex
  constructor
  · obtain ⟨vs, hvs⟩ := resolveArgs_ok_of_all defaults pe e pe.indexedInputs hidx
    exact ⟨abiMakeTopics (TypedValue.hash pe.id :: vs), by simp [MakeTopics, hvs]⟩
  · obtain ⟨nm, hnm⟩ :=
      resolveArgs_missing_of_mixed defaults pe e pe.nonIndexedInputs hmix hex
    exact ⟨nm, by simp [MakeData, hnm]⟩

theorem C7_witness :
    (∀ a ∈ pe0.indexedInputs, argResolves defaults0 pe0 e1 a = true) ∧
    (∀ a ∈ pe0.nonIndexedInputs, argResolves defaults0 pe0 e1 a = true ∨
      searchAttributesForArg e1.attributes a.name = notFound) ∧
    (∃ a ∈ pe0.nonIndexedInputs,
      searchAttributesForArg e1.attributes a.name = notFound) ∧
    (∃ ts, MakeTopics defaults0 pe0 e1 = Except.ok ts) ∧
    (∃ nm, MakeData defaults0 pe0 e1 =
      Except.error (Err.missingAttribute e1.type nm)) := by
  have h1 : ∀ a ∈ pe0.indexedInputs, argResolves defaults0 pe0 e1 a = true := by
    intro a ha
    simp only [pe0, List.mem_singleton] at ha
    rw [ha]
    rfl
  have h2 : ∀ a ∈ pe0.nonIndexedInputs, argResolves defaults0 pe0 e1 a = true ∨
      searchAttributesForArg e1.attributes a.name = notFound := by
    intro a ha
    simp only [pe0, List.mem_singleton] at ha
    rw [ha]
    exact Or.inr rfl
  have h3 : ∃ a ∈ pe0.nonIndexedInputs,
      searchAttributesForArg e1.attributes a.name = notFound :=
    ⟨⟨"amount"⟩, by simp [pe0], rfl⟩
  obtain ⟨hts, hnm⟩ :=
    (C7_independent_failure_domains defaults0 pe0 e1).2.2 h1 h2 h3
  exact ⟨h1, h2, h3, hts, hnm⟩

/-- C9: the builders do not enforce the attribute-count precondition —
on a concrete descriptor needing two attributes and an event carrying
only the indexed argument's attribute, `ValidateAttributes` fails with
the insufficient-attributes error while `MakeTopics` succeeds. -/
theorem C9_builders_skip_count_check :
    e1.attributes.length <
      pe0.indexedInputs.length + pe0.nonIndexedInputs.length ∧
    ValidateAttributes pe0 e1 =
      Except.error (Err.insufficientAttributes "transfer") ∧
    MakeTopics defaults0 pe0 e1 = Except.ok [42, 483681] :=
  ⟨Nat.one_lt_two, rfl, rfl⟩

theorem resolveArgs_first_noDecoder (d : ValueDecoders) (pe : PrecompileEvent)
    (e : Event) :
    ∀ pre (a : Arg) post (attr : Attribute) k,
    (∀ b ∈ pre, argResolves d pe e b = true) →
    searchAttributesForArg e.attributes a.name ≠ notFound →
    e.attributes[(searchAttributesForArg e.attributes a.name).toNat]? = some attr →
    attr.key = k →
    getValueDecoder d pe k = Except.error (Err.noDecoderForKey k) →
    resolveArgs d pe e (pre ++ a :: post) =
      Except.error (Err.noDecoderForKey k) := by
  intro pre
  induction pre with
  | nil =>
    intro a post attr k _ hne hget hkey hdec
    simp [resolveArgs, hne, hget, hkey, hdec]
  | cons b pres ih =>
    intro a post attr k hall hne hget hkey hdec
    have hres := ih a post attr k (fun c hc => hall c (List.mem_cons_of_mem _ hc))
      hne hget hkey hdec
    obtain ⟨v, herrp, _⟩ := resolveArgs_cons_ok d pe e b (pres ++ a :: post)
      (hall b (List.mem_cons_self b pres))
    exact herrp _ hres

/-- C3: decoder resolution consults the descriptor's override map
first, falls back to the process-wide default table, errors with the
no-decoder error when neither has an entry, and a builder whose first
failing argument (every earlier argument resolving) requires a key with
no decoder fails with that error and produces no output, wherever that
argument sits in the descriptor's argument list. -/
theorem C3_decoder_resolution :
    (∀ defaults (pe : PrecompileEvent) k m d2,
      pe.customValueDecoders = some m → mapIndex m k = some d2 →
      getValueDecoder defaults pe k = Except.ok d2) ∧
    (∀ defaults (pe : PrecompileEvent) k d2,
      (pe.customValueDecoders = none ∨
        ∃ m, pe.customValueDecoders = some m ∧ mapIndex m k = none) →
      mapIndex defaults k = some d2 →
      getValueDecoder defaults pe k = Except.ok d2) ∧
    (∀ defaults (pe : PrecompileEvent) k,
      (pe.customValueDecoders = none ∨
        ∃ m, pe.customValueDecoders = some m ∧ mapIndex m k = none) →
      mapIndex defaults k = none →
      getValueDecoder defaults pe k = Except.error (Err.noDecoderForKey k)) ∧
    (∀ defaults (pe : PrecompileEvent) (e : Event) k pre a post attr,
      pe.indexedInputs = pre ++ a :: post →
      (∀ b ∈ pre, argResolves defaults pe e b = true) →
      searchAttributesForArg e.attributes a.name ≠ notFound →
      e.attributes[(searchAttributesForArg e.attributes a.name).toNat]? = some attr →
      attr.key = k →
      getValueDecoder defaults pe k = Except.error (Err.noDecoderForKey k) →
      MakeTopics defaults pe e = Except.error (Err.noDecoderForKey k)) ∧
    (∀ defaults (pe : PrecompileEvent) (e : Event) k pre a post attr,
      pe.nonIndexedInputs = pre ++ a :: post →
      (∀ b ∈ pre, argResolves defaults pe e b = true) →
      searchAttributesForArg e.attributes a.name ≠ notFound →
      e.attributes[(searchAttributesForArg e.attributes a.name).toNat]? = some attr →
      attr.key = k →
      getValueDecoder defaults pe k = Except.error (Err.noDecoderForKey k) →
      MakeData defaults pe e = Except.error (Err.noDecoderForKey k)) := by
  refine ⟨?_, ?_, ?_, ?_, ?_⟩
  · intro defaults pe k m d2 hm hmi
    simp [getValueDecoder, hm, hmi]
  · intro defaults pe k d2 hcust hdef
    cases hcust with
    | inl hnone => simp [getValueDecoder, hnone, hdef]
    | inr hsome =>
      obtain ⟨m, hm, hmi⟩ := hsome
      simp [getValueDecoder, hm, hmi, hdef]
  · intro defaults pe k hcust hdef
    cases hcust with
    | inl hnone => simp [getValueDecoder, hnone, hdef]
    | inr hsome =>
      obtain ⟨m, hm, hmi⟩ := hsome
      simp [getValueDecoder, hm, hmi, hdef]
  · intro defaults pe e k pre a post attr hsplit hpre hne hget hkey hdec
    have h2 := resolveArgs_first_noDecoder defaults pe e pre a post attr k
      hpre hne hget hkey hdec
    rw [← hsplit] at h2
    simp [MakeTopics, h2]
  · intro defaults pe e k pre a post attr hsplit hpre hne hget hkey hdec
    have h2 := resolveArgs_first_noDecoder defaults pe e pre a post attr k
      hpre hne hget hkey hdec
    rw [← hsplit] at h2
    simp [MakeData, h2]

theorem C3_witness :
    peOverride.customValueDecoders = some [("from", some decNum)] ∧
    mapIndex [("from", some decNum)] "from" = some decNum ∧
    getValueDecoder defaults0 peOverride "from" = Except.ok decNum ∧
    pe0.customValueDecoders = none ∧
    mapIndex defaults0 "from" = some decStr ∧
    getValueDecoder defaults0 pe0 "from" = Except.ok decStr ∧
    mapIndex defaults0 "zzz" = none ∧
    getValueDecoder defaults0 pe0 "zzz" =
      Except.error (Err.noDecoderForKey "zzz") ∧
    peZ2.indexedInputs = [(⟨"from"⟩ : Arg)] ++ (⟨"zzz"⟩ : Arg) :: [] ∧
    peZ2.nonIndexedInputs = [(⟨"from"⟩ : Arg)] ++ (⟨"zzz"⟩ : Arg) :: [] ∧
    (∀ b ∈ [(⟨"from"⟩ : Arg)], argResolves defaults0 peZ2 eZ2 b = true) ∧
    searchAttributesForArg eZ2.attributes "zzz" ≠ notFound ∧
    eZ2.attributes[(searchAttributesForArg eZ2.attributes "zzz").toNat]? =
      some ⟨"zzz", "v"⟩ ∧
    getValueDecoder defaults0 peZ2 "zzz" =
      Except.error (Err.noDecoderForKey "zzz") ∧
    MakeTopics defaults0 peZ2 eZ2 =
      Except.error (Err.noDecoderForKey "zzz") ∧
    MakeData defaults0 peZ2 eZ2 =
      Except.error (Err.noDecoderForKey "zzz") := by
  have hpre : ∀ b ∈ [(⟨"from"⟩ : Arg)], argResolves defaults0 peZ2 eZ2 b = true := by
    intro b hb
    simp only [List.mem_singleton] at hb
    rw [hb]
    rfl
  have hne : searchAttributesForArg eZ2.attributes "zzz" ≠ notFound := by decide
  exact ⟨rfl, rfl,
    C3_decoder_resolution.1 defaults0 peOverride "from" [("from", some decNum)]
      decNum rfl rfl,
    rfl, rfl,
    C3_decoder_resolution.2.1 defaults0 pe0 "from" decStr (Or.inl rfl) rfl,
    rfl,
    C3_decoder_resolution.2.2.1 defaults0 pe0 "zzz" (Or.inl rfl) rfl,
    rfl, rfl, hpre, hne, rfl, rfl,
    C3_decoder_resolution.2.2.2.1 defaults0 peZ2 eZ2 "zzz" [⟨"from"⟩] ⟨"zzz"⟩ []
      ⟨"zzz", "v"⟩ rfl hpre hne rfl rfl rfl,
    C3_decoder_resolution.2.2.2.2 defaults0 peZ2 eZ2 "zzz" [⟨"from"⟩] ⟨"zzz"⟩ []
      ⟨"zzz", "v"⟩ rfl hpre hne rfl rfl rfl⟩

/-- C10: decoder resolution is total over degenerate override tables —
every successful lookup returns a decode function actually stored as a
non-nil entry (never a nil function), otherwise the no-decoder error is
returned; a nil override map behaves like an empty one, a lookup miss
in a present override map falls through to the default-table path, and
an override entry storing a nil function is a lookup miss for its
key. -/
theorem C10_degenerate_override_tables :
    (∀ defaults (pe : PrecompileEvent) k,
      (∃ d2, getValueDecoder defaults pe k = Except.ok d2 ∧
        ((∃ m, pe.customValueDecoders = some m ∧ mapIndex m k = some d2) ∨
          mapIndex defaults k = some d2)) ∨
      getValueDecoder defaults pe k = Except.error (Err.noDecoderForKey k)) ∧
    (∀ defaults (pe : PrecompileEvent) k,
      pe.customValueDecoders = none →
      getValueDecoder defaults pe k =
        getValueDecoder defaults { pe with customValueDecoders := some [] } k) ∧
    (∀ defaults (pe : PrecompileEvent) k m,
      pe.customValueDecoders = some m → mapIndex m k = none →
      getValueDecoder defaults pe k =
        getValueDecoder defaults { pe with customValueDecoders := none } k) ∧
    (∀ defaults (pe : PrecompileEvent) k rest,
      getValueDecoder defaults
          { pe with customValueDecoders := some ((k, none) :: rest) } k =
        getValueDecoder defaults { pe with customValueDecoders := none } k) := by
  refine ⟨?_, ?_, ?_, ?_⟩
  · intro defaults pe k
    cases hcust : pe.customValueDecoders with
    | some m =>
      cases hmi : mapIndex m k with
      | some d2 =>
        exact Or.inl ⟨d2, by simp [getValueDecoder, hcust, hmi],
          Or.inl ⟨m, rfl, hmi⟩⟩
      | none =>
        cases hdef : mapIndex defaults k with
        | some d2 =>
          exact Or.inl ⟨d2, by simp [getValueDecoder, hcust, hmi, hdef],
            Or.inr rfl⟩
        | none => exact Or.inr (by simp [getValueDecoder, hcust, hmi, hdef])
    | none =>
      cases hdef : mapIndex defaults k with
      | some d2 =>
        exact Or.inl ⟨d2, by simp [getValueDecoder, hcust, hdef], Or.inr rfl⟩
      | none => exact Or.inr (by simp [getValueDecoder, hcust, hdef])
  · intro defaults pe k hnone
    simp [getValueDecoder, hnone, mapIndex]
  · intro defaults pe k m hm hmi
    simp [getValueDecoder, hm, hmi]
  · intro defaults pe k rest
    simp [getValueDecoder, mapIndex]

theorem C10_witness :
    ((∃ d2, getValueDecoder defaults0 peNilEntry "from" = Except.ok d2 ∧
        ((∃ m, peNilEntry.customValueDecoders = some m ∧
            mapIndex m "from" = some d2) ∨
          mapIndex defaults0 "from" = some d2)) ∨
      getValueDecoder defaults0 peNilEntry "from" =
        Except.error (Err.noDecoderForKey "from")) ∧
    pe0.customValueDecoders = none ∧
    getValueDecoder defaults0 pe0 "from" =
      getValueDecoder defaults0 { pe0 with customValueDecoders := some [] } "from" ∧
    peNilEntry.customValueDecoders = some [("from", none)] ∧
    mapIndex [("from", none)] "from" = none ∧
    getValueDecoder defaults0 peNilEntry "from" =
      getValueDecoder defaults0
        { peNilEntry with customValueDecoders := none } "from" ∧
    getValueDecoder defaults0
        { pe0 with customValueDecoders := some (("from", none) :: []) } "from" =
      getValueDecoder defaults0 { pe0 with customValueDecoders := none } "from" :=
  ⟨C10_degenerate_override_tables.1 defaults0 peNilEntry "from",
    rfl,
    C10_degenerate_override_tables.2.1 defaults0 pe0 "from" rfl,
    rfl, rfl,
    C10_degenerate_override_tables.2.2.1 defaults0 peNilEntry "from"
      [("from", none)] rfl rfl,
    C10_degenerate_override_tables.2.2.2 defaults0 pe0 "from" []⟩

end Stargazer
